import Mathlib

/-!
Verification of the authBackend notes/diary service core: password hashing
with truncation, JWT issue/verify, the authentication gate, owner-scoped
note CRUD and search, and the S3 attachment lifecycle. Each definition is a
shallow embedding of the corresponding Python function from the repository
(src/utils/auth.py, src/routes/users.py, src/routes/notes.py,
src/routes/signup.py, src/config/config.py); doc comments name the source.
-/

/-! ## Basic string and parsing utilities shared by the embeddings -/

/-- Substring containment on character lists: true when the pattern occurs
contiguously inside the other list. -/
def list_contains (p : List Char) : List Char → Bool
  | [] => p.isEmpty
  | c :: rest => p.isPrefixOf (c :: rest) || list_contains p rest

/-- True when the pattern string occurs as a contiguous substring, used to
model the Python "in" operator on strings. -/
def str_contains_sub (hay pat : String) : Bool :=
  list_contains pat.data hay.data

/-- Whitespace accepted by the Python int constructor around a numeral. -/
def is_py_space (c : Char) : Bool :=
  c = ' ' || c = '\t' || c = '\n' || c = '\r' || c = '\x0b' || c = '\x0c'

/-- Digit run accepted by the Python int constructor after the first digit:
further digits, possibly separated by single underscores. -/
def py_digits_aux : Nat → List Char → Option Nat
  | acc, [] => some acc
  | _, ['_'] => none
  | acc, '_' :: c :: rest =>
    if c.isDigit then py_digits_aux (10 * acc + (c.toNat - 48)) rest else none
  | acc, c :: rest =>
    if c.isDigit then py_digits_aux (10 * acc + (c.toNat - 48)) rest else none

/-- Unsigned numeral body: a first digit followed by a digit run. -/
def py_int_core : List Char → Option Nat
  | [] => none
  | c :: rest =>
    if c.isDigit then py_digits_aux (c.toNat - 48) rest else none

/-- Models the Python int constructor on a string (base 10): optional
surrounding whitespace, an optional sign, then digits with optional single
underscore separators; anything else raises ValueError, modelled as none. -/
def py_int? (s : String) : Option Int :=
  let cs := ((s.data.dropWhile is_py_space).reverse.dropWhile is_py_space).reverse
  match cs with
  | '+' :: rest => (py_int_core rest).map Int.ofNat
  | '-' :: rest => (py_int_core rest).map (fun n => -(Int.ofNat n))
  | rest => (py_int_core rest).map Int.ofNat

/-- Hex digit test for percent-decoding. -/
def is_hex_digit (c : Char) : Bool :=
  c.isDigit || ('a' ≤ c && c ≤ 'f') || ('A' ≤ c && c ≤ 'F')

/-- Numeric value of a hex digit. -/
def hex_val (c : Char) : Nat :=
  if c.isDigit then c.toNat - 48
  else if 'a' ≤ c && c ≤ 'f' then c.toNat - 87
  else c.toNat - 55

/-- Models urllib.parse.unquote at the ASCII level: each valid percent
escape is decoded to its character, invalid escapes are left literal. -/
def unquote_chars : List Char → List Char
  | [] => []
  | '%' :: a :: b :: rest =>
    if is_hex_digit a && is_hex_digit b then
      Char.ofNat (16 * hex_val a + hex_val b) :: unquote_chars rest
    else '%' :: unquote_chars (a :: b :: rest)
  | c :: rest => c :: unquote_chars rest

/-- Percent-decoding lifted to strings, modelling urllib.parse.unquote. -/
def str_unquote (s : String) : String :=
  String.mk (unquote_chars s.data)

/-- Plus-to-space replacement, modelling the Python str.replace call used on
object keys. -/
def str_replace_plus (s : String) : String :=
  String.mk (s.data.map (fun c => if c = '+' then ' ' else c))

/-- Models urllib.parse.unquote_plus: plus signs become spaces, then percent
escapes are decoded. -/
def str_unquote_plus (s : String) : String :=
  str_unquote (str_replace_plus s)

/-- Fuel-driven worker for py_split; the fuel is the length of the input, so
it never runs out for a nonempty separator. -/
def py_split_fuel (sep : List Char) : Nat → List Char → List Char → List (List Char)
  | _, acc, [] => [acc.reverse]
  | 0, acc, s => [acc.reverse ++ s]
  | fuel + 1, acc, c :: rest =>
    if sep.isPrefixOf (c :: rest) then
      acc.reverse :: py_split_fuel sep fuel [] ((c :: rest).drop sep.length)
    else
      py_split_fuel sep fuel (c :: acc) rest

/-- Models the Python str.split method with a nonempty separator: the parts
between consecutive non-overlapping occurrences of the separator. -/
def py_split (s sep : String) : List String :=
  (py_split_fuel sep.data s.data.length [] s.data).map String.mk

/-- Order-preserving removal of duplicates, modelling the unique_keys loop in
get_file_from_s3. -/
def dedup_keys_aux (seen : List String) : List String → List String
  | [] => []
  | k :: rest =>
    if k ∈ seen then dedup_keys_aux seen rest
    else k :: dedup_keys_aux (k :: seen) rest

def dedup_keys (l : List String) : List String :=
  dedup_keys_aux [] l

/-! ## HTTP error taxonomy -/

/-- A FastAPI HTTPException reduced to the data the routes set: a status
code and a detail message. -/
structure HTTPError where
  status : Nat
  detail : String
deriving DecidableEq

/-- Models the Python str() of a starlette HTTPException, which renders as
the status code, a colon and a space, then the detail. -/
def http_exception_str (e : HTTPError) : String :=
  toString e.status ++ ": " ++ e.detail

/-- The generic 401 credentials_exception raised by the auth gate in
src/routes/users.py. -/
def credentials_exception : HTTPError :=
  { status := 401, detail := "Could not validate credentials" }

/-- Status code of a route outcome, for stating which HTTP status a request
observes. -/
def response_status {α : Type} : Except HTTPError α → Option Nat
  | .error e => some e.status
  | .ok _ => none

/-! ## Password hasher (src/utils/auth.py) -/

/-- The underlying salted slow hash behind passlib CryptContext with the
bcrypt scheme, abstracted as any scheme whose verify accepts its own hash.
The repository code never inspects the digest; it only calls hash and
verify, so every theorem is parametric in the backend. -/
structure BcryptBackend where
  hash : String → String
  verify : String → String → Bool
  roundtrip : ∀ p, verify p (hash p) = true

/-- Embeds get_password_hash from src/utils/auth.py: truncate the plaintext
to its first 72 characters when longer, then hash. The defensive retry
branch of the source only runs when the backend raises, which the total
model backend never does. -/
def get_password_hash (B : BcryptBackend) (password : String) : String :=
  let password := if password.length > 72 then String.mk (password.data.take 72) else password
  B.hash password

/-- Embeds verify_password from src/utils/auth.py: truncate the plaintext to
its first 72 characters when longer, then verify against the stored digest.
The fallback branch of the source only runs when the backend raises. -/
def verify_password (B : BcryptBackend) (plain_password hashed_password : String) : Bool :=
  let plain_password :=
    if plain_password.length > 72 then String.mk (plain_password.data.take 72) else plain_password
  B.verify plain_password hashed_password

/-- A concrete executable backend used to instantiate witnesses. -/
def test_backend : BcryptBackend where
  hash p := "h:" ++ p
  verify p h := h == "h:" ++ p
  roundtrip p := by simp

/-! ## Token issuer and verifier (src/utils/auth.py, src/routes/users.py) -/

/-- The JWT claims the service uses: the subject written by the login
routes, and the absolute expiry timestamp written by create_access_token.
A subject of a non-string JSON type fails the TokenData validation in the
gate exactly like a missing subject, so both are modelled as none. -/
structure Payload where
  sub : Option String
  exp : Int
deriving DecidableEq

/-- A signed token under an idealized HMAC: the signature is the pair of the
signing secret and the signed payload, so it verifies under a secret exactly
when that secret signed this very payload. -/
structure Jwt where
  payload : Payload
  sig : String × Payload
deriving DecidableEq

/-- Embeds jwt.encode with the pinned HS256 algorithm: sign the payload with
the server secret. -/
def jwt_encode (secret : String) (p : Payload) : Jwt :=
  { payload := p, sig := (secret, p) }

/-- Embeds jwt.decode at time now: the decode raises (modelled as none)
when the signature was not produced by this secret over this payload, or
when the exp claim lies in the past. -/
def jwt_decode (secret : String) (now : Int) (t : Jwt) : Option Payload :=
  if t.sig = (secret, t.payload) ∧ now ≤ t.payload.exp then some t.payload else none

/-- Embeds create_access_token from src/utils/auth.py: the claims are the
data dict (here the subject) plus an exp of now plus the given delta, with
a 15 minute default; time is measured in minutes. -/
def create_access_token (secret : String) (sub : String) (now : Int)
    (expires_delta : Option Int) : Jwt :=
  jwt_encode secret { sub := some sub, exp := now + expires_delta.getD 15 }

/-- Embeds verify_token from src/utils/auth.py: decode and return the
payload, catching JWTError into none so nothing throws across the
boundary. -/
def verify_token (secret : String) (now : Int) (t : Jwt) : Option Payload :=
  jwt_decode secret now t

/-- The full token validation the auth gate performs before the store
lookup: decode, then read the sub claim; a missing or malformed subject
yields none exactly like a bad signature or an expired token. -/
def validate_token (secret : String) (now : Int) (t : Jwt) : Option String :=
  match verify_token secret now t with
  | none => none
  | some payload => payload.sub

/-! ## The shared MongoDB collection and its documents -/

/-- A document of the noteDiary collection. The collection is schemaless and
holds two shapes of documents: credential records written by signup
(username, hashed_password, profile fields, role, disabled) and note records
written by create_note (id, title, description, date, user_id and the
optional attachment URLs). Every field is therefore optional here; absent
fields are none. -/
structure Doc where
  id : Option Int := none
  title : Option String := none
  description : Option String := none
  date : Option String := none
  user_id : Option String := none
  image_url : Option String := none
  audio_url : Option String := none
  video_url : Option String := none
  username : Option String := none
  hashed_password : Option String := none
  disabled : Option Bool := none
  role : Option String := none
deriving DecidableEq

/-- From src/config/config.py: the client opens database memories and
blogs_collection is its noteDiary collection, holding credential records. -/
def blogs_collection_ref : String × String := ("memories", "noteDiary")

/-- From src/routes/notes.py: db is client.memories and notes_collection is
db.noteDiary, the very same collection that stores credential records. -/
def notes_collection_ref : String × String := ("memories", "noteDiary")

/-! ## Auth gate (src/routes/users.py) -/

/-- Embeds get_token_from_header: the Authorization header must be present
and carry the Bearer scheme; otherwise an immediate 401 without touching the
store. -/
def get_token_from_header (auth_header : Option String) : Except HTTPError String :=
  match auth_header with
  | none => .error { status := 401, detail := "Not authenticated" }
  | some h =>
    if "Bearer ".isPrefixOf h then .ok (h.drop 7)
    else .error { status := 401, detail := "Not authenticated" }

/-- Embeds get_user from src/utils/auth.py: find_one on the collection by
the username field. The source wraps the found document in a pydantic
UserInDB; the model returns the document itself. -/
def get_user (store : List Doc) (username : String) : Option Doc :=
  store.find? (fun d => d.username == some username)

/-- Embeds get_current_user from src/routes/users.py: decode the token
(any decode failure, a missing subject, and a malformed subject all raise
the generic 401 credentials_exception), then load the credential record by
subject; an absent record is the same generic 401. -/
def get_current_user (secret : String) (now : Int) (store : List Doc) (token : Jwt) :
    Except HTTPError Doc :=
  match jwt_decode secret now token with
  | none => .error credentials_exception
  | some payload =>
    match payload.sub with
    | none => .error credentials_exception
    | some username =>
      match get_user store username with
      | none => .error credentials_exception
      | some u => .ok u

/-- Embeds get_current_active_user from src/routes/users.py: a resolved
record whose disabled flag is truthy (exactly the value true; false and an
absent flag are falsy in Python) is rejected with a distinct 400 Inactive
user response. -/
def get_current_active_user (secret : String) (now : Int) (store : List Doc) (token : Jwt) :
    Except HTTPError Doc :=
  match get_current_user secret now store token with
  | .error e => .error e
  | .ok u =>
    if u.disabled = some true then .error { status := 400, detail := "Inactive user" }
    else .ok u

/-- A protected route: the downstream handler runs only when the gate
resolves a user. -/
def run_protected {α : Type} (gate : Except HTTPError Doc) (handler : Doc → α) :
    Except HTTPError α :=
  gate.map handler

/-! ## Attachment store (S3 helpers in src/routes/notes.py) -/

/-- The attachment store as the set of object keys currently present; the
claims under verification only concern object existence, never content. -/
abbrev S3State := List String

/-- Set-semantics insertion: a put of an existing key overwrites in place. -/
def insert_key (k : String) (s : S3State) : S3State :=
  if k ∈ s then s else k :: s

/-- The CloudFront distribution host hard-coded in src/routes/notes.py. -/
def cdn_base : String := "https://d2ljorwegx33x7.cloudfront.net/"

/-- Embeds save_file_to_s3: the object is stored under the timestamped
object key (supplied here already assembled, since the model has no clock)
and the returned URL is the CloudFront base followed by the key. -/
def save_file_to_s3 (object_key : String) (s : S3State) : String × S3State :=
  (cdn_base ++ object_key, insert_key object_key s)

/-- Embeds the URL-to-key resolution shared by get_file_from_s3 and
delete_file_from_s3: CloudFront URLs take the split part after the first
cloudfront.net/ occurrence, amazonaws URLs the part after the first
.amazonaws.com/ occurrence, anything else is treated as a bare key; a URL
mentioning cloudfront.net without a following slash raises IndexError,
which the source converts to a 400. -/
def extract_key (file_url : String) : Except HTTPError String :=
  if str_contains_sub file_url "cloudfront.net" then
    match (py_split file_url "cloudfront.net/").get? 1 with
    | some k => .ok k
    | none => .error { status := 400, detail := "Invalid file URL format: " ++ file_url }
  else if str_contains_sub file_url ".amazonaws.com/" then
    match (py_split file_url ".amazonaws.com/").get? 1 with
    | some k => .ok k
    | none => .error { status := 400, detail := "Invalid file URL format: " ++ file_url }
  else .ok file_url

/-- The ordered key variations get_file_from_s3 attempts, duplicates
removed while preserving order. -/
def key_variants (key : String) : List String :=
  dedup_keys [key, str_unquote_plus key, str_unquote key, str_replace_plus key]

/-- Embeds get_file_from_s3: resolve the key, then try each variation in
order until one names a stored object; when none does, a 404 distinct from
other backend errors. -/
def get_file_from_s3 (file_url : String) (s : S3State) : Except HTTPError String :=
  match extract_key file_url with
  | .error e => .error e
  | .ok key =>
    match (key_variants key).find? (fun k => decide (k ∈ s)) with
    | some k => .ok k
    | none => .error { status := 404, detail := "File not found with any key variation" }

/-- Embeds delete_file_from_s3: resolve the key, percent-decode it, delete
the object; deleting an absent key is a silent success, as in S3. -/
def delete_file_from_s3 (file_url : String) (s : S3State) : Except HTTPError S3State :=
  match extract_key file_url with
  | .error e => .error e
  | .ok key => .ok (s.filter (fun k => decide (k ≠ str_unquote key)))

/-! ## Operation traces for the attachment lifecycle -/

/-- One externally visible store operation of a note route: an S3 delete by
URL, an S3 put of a fresh key, or the record-store write. -/
inductive S3Op where
  | del (url : String)
  | put (key : String)
  | rec_update
deriving DecidableEq

/-- Effect of one operation on the attachment store; the record write does
not touch it. -/
def apply_op (s : S3State) : S3Op → S3State
  | .del url =>
    match extract_key url with
    | .ok key => s.filter (fun k => decide (k ≠ str_unquote key))
    | .error _ => s
  | .put key => insert_key key s
  | .rec_update => s

def run_ops (s : S3State) (ops : List S3Op) : S3State :=
  ops.foldl apply_op s

/-- Every attachment-store state a trace passes through, the initial and
final states included. -/
def states_along (s : S3State) : List S3Op → List S3State
  | [] => [s]
  | op :: rest => s :: states_along (apply_op s op) rest

/-- Python truthiness of an optional string field: an absent field and the
empty string are both falsy. -/
def truthy_str : Option String → Option String
  | some u => if u = "" then none else some u
  | none => none

/-! ## Note lifecycle (src/routes/notes.py) -/

/-- Embeds the find_one filter by id and owner shared by the single-note
routes. -/
def find_note (coll : List Doc) (note_id : Int) (username : String) : Option Doc :=
  coll.find? (fun d => d.id == some note_id && d.user_id == some username)

/-- Embeds get_notes: the collection filtered server-side by the
authenticated owner. The source wraps each document in the pydantic Note
model; the model returns the documents. -/
def get_notes (username : String) (coll : List Doc) : List Doc :=
  coll.filter (fun d => d.user_id == some username)

/-- Embeds get_note: find by id and owner, else 404. This route has no
catch-all handler, so its 404 reaches the caller unchanged. -/
def get_note (note_id : Int) (username : String) (coll : List Doc) : Except HTTPError Doc :=
  match find_note coll note_id username with
  | some note => .ok note
  | none => .error { status := 404, detail := "Note not found" }

/-- Modelled from the spec: the regex matcher the document store applies
for the case-insensitive regex filter built in search_notes is an external
collaborator (MongoDB), not code of this repository; per the spec wording
(case-insensitive substring match over title and description; the store is
queried by equality and regex-like substring filters) it is modelled as
case-insensitive substring containment, exact for query strings free of
regex metacharacters. An absent field never matches. -/
def regex_i_match (query : String) (field : Option String) : Bool :=
  match field with
  | some s => list_contains (query.data.map Char.toLower) (s.data.map Char.toLower)
  | none => false

/-- Embeds the or-list of search conditions built in search_notes: title
match, description match, and an exact id match added only when the query
parses as a Python int. -/
def search_conditions (query : String) (d : Doc) : Bool :=
  regex_i_match query d.title || regex_i_match query d.description ||
    (match py_int? query with
     | some n => d.id == some n
     | none => false)

/-- Embeds search_notes: documents of the authenticated owner matching any
search condition. The surrounding try block cannot fail on this pure
path. -/
def search_notes (query username : String) (coll : List Doc) : List Doc :=
  coll.filter (fun d => d.user_id == some username && search_conditions query d)

/-- Largest id present in the collection, ignoring documents without an id
field (the credential records). -/
def max_id : List Doc → Option Int
  | [] => none
  | d :: rest =>
    match d.id, max_id rest with
    | none, m => m
    | some i, none => some i
    | some i, some m => some (max i m)

/-- Embeds get_next_sequence_value: find_one over the whole collection with
no owner filter, sorted by id descending (BSON sorts documents missing the
field below every number), then the found id plus one with a get default of
0; an empty collection yields 1. Both shapes collapse to: the maximal
present id plus one, else 1. -/
def get_next_sequence_value (coll : List Doc) : Int :=
  match max_id coll with
  | none => 1
  | some m => m + 1

structure CreateResult where
  message : String
  id : Int
  image_url : Option String
  audio_url : Option String
  video_url : Option String
deriving DecidableEq

/-- Upload of an optional attachment part, as create_note does per slot. -/
def upload_opt : Option String → S3State → Option String × S3State
  | none, s => (none, s)
  | some k, s =>
    let r := save_file_to_s3 k s
    (some r.1, r.2)

/-- Embeds create_note: upload the provided attachments, compute the next
sequential id, insert the note document owned by the authenticated user,
and answer with the id and the attachment URLs, null for absent slots. -/
def create_note (username title description date : String)
    (image_key audio_key video_key : Option String)
    (coll : List Doc) (s3 : S3State) : CreateResult × List Doc × S3State :=
  let ri := upload_opt image_key s3
  let ra := upload_opt audio_key ri.2
  let rv := upload_opt video_key ra.2
  let note_id := get_next_sequence_value coll
  let note : Doc :=
    { id := some note_id, title := some title,
      description := some description, date := some date, user_id := some username,
      image_url := ri.1, audio_url := ra.1, video_url := rv.1 }
  ({ message := "Note created successfully", id := note_id,
     image_url := ri.1, audio_url := ra.1, video_url := rv.1 },
   coll ++ [note], rv.2)

/-- Attachment deletion guarded by field truthiness, as the delete route
does per slot. -/
def del_url_opt : Option String → S3State → Except HTTPError S3State
  | none, s => .ok s
  | some u, s => delete_file_from_s3 u s

/-- Embeds the MongoDB delete_one call: remove the first matching document,
reporting the deleted count. -/
def delete_one_note (note_id : Int) (username : String) : List Doc → List Doc × Nat
  | [] => ([], 0)
  | d :: rest =>
    if d.id = some note_id ∧ d.user_id = some username then (rest, 1)
    else
      let r := delete_one_note note_id username rest
      (d :: r.1, r.2)

/-- The body of delete_note before its catch-all handler: find the note by
id and owner (404 when absent), delete each referenced attachment from the
store, then delete the record, with a second 404 when the record vanished
in between. -/
def delete_note_body (username : String) (note_id : Int) (coll : List Doc) (s3 : S3State) :
    Except HTTPError (List Doc × S3State × String) :=
  match find_note coll note_id username with
  | none => .error { status := 404, detail := "Note not found" }
  | some note =>
    match del_url_opt (truthy_str note.image_url) s3 with
    | .error e => .error e
    | .ok s3a =>
      match del_url_opt (truthy_str note.audio_url) s3a with
      | .error e => .error e
      | .ok s3b =>
        match del_url_opt (truthy_str note.video_url) s3b with
        | .error e => .error e
        | .ok s3c =>
          let r := delete_one_note note_id username coll
          if r.2 ≠ 0 then .ok (r.1, s3c, "Note deleted successfully")
          else .error { status := 404, detail := "Note not found" }

/-- Embeds delete_note from src/routes/notes.py including its catch-all
handler: the whole body, its own 404 HTTPException included, runs inside a
try whose except Exception clause re-raises every exception as a 500 whose
detail is the Python str of the caught exception. -/
def delete_note (username : String) (note_id : Int) (coll : List Doc) (s3 : S3State) :
    Except HTTPError (List Doc × S3State × String) :=
  match delete_note_body username note_id coll s3 with
  | .ok r => .ok r
  | .error e => .error { status := 500, detail := http_exception_str e }

/-- The operation trace one attachment slot of update_note emits: nothing
when no new file is sent; otherwise the delete of the old object when one
was referenced, immediately followed by the put of the new object. -/
def slot_ops (old_url : Option String) (new_key : Option String) : List S3Op :=
  match new_key with
  | none => []
  | some k =>
    (match old_url with
     | some u => [S3Op.del u]
     | none => []) ++ [S3Op.put k]

/-- One attachment slot of update_note: when a new file is sent, delete the
old object first if the note referenced one, then upload the new object,
returning the new store, the emitted trace, and the new URL. -/
def process_slot (old_url : Option String) (new_key : Option String) (s3 : S3State) :
    Except HTTPError (S3State × List S3Op × Option String) :=
  match new_key with
  | none => .ok (s3, [], none)
  | some k =>
    match old_url with
    | some u =>
      match delete_file_from_s3 u s3 with
      | .error e => .error e
      | .ok s3d =>
        let r := save_file_to_s3 k s3d
        .ok (r.2, [S3Op.del u, S3Op.put k], some r.1)
    | none =>
      let r := save_file_to_s3 k s3
      .ok (r.2, [S3Op.put k], some r.1)

/-- Embeds the MongoDB update_one call with a set document: rewrite the
first matching document, reporting the modified count, which is zero when
the set leaves the document unchanged. -/
def update_first (note_id : Int) (username : String) (f : Doc → Doc) :
    List Doc → List Doc × Nat
  | [] => ([], 0)
  | d :: rest =>
    if d.id = some note_id ∧ d.user_id = some username then
      (f d :: rest, if f d = d then 0 else 1)
    else
      let r := update_first note_id username f rest
      (d :: r.1, r.2)

/-- The set document update_note builds: title, description and date are
always written; each attachment URL is written only when that slot uploaded
a new object. -/
def apply_update (title description date : String)
    (mI mA mV : Option String) (d : Doc) : Doc :=
  { d with
    title := some title, description := some description, date := some date,
    image_url := (match mI with | some u => some u | none => d.image_url),
    audio_url := (match mA with | some u => some u | none => d.audio_url),
    video_url := (match mV with | some u => some u | none => d.video_url) }

/-- The body of update_note before its catch-all handler: find the note by
id and owner (404 when absent), process the image, audio and video slots in
that order, and only then write the record update. The returned trace lists
the store operations in execution order. -/
def update_note_body (username : String) (note_id : Int)
    (image_key audio_key video_key : Option String)
    (title description date : String) (coll : List Doc) (s3 : S3State) :
    Except HTTPError (List Doc × S3State × List S3Op × String) :=
  match find_note coll note_id username with
  | none => .error { status := 404, detail := "Note not found" }
  | some existing =>
    match process_slot (truthy_str existing.image_url) image_key s3 with
    | .error e => .error e
    | .ok (s1, opsI, mI) =>
      match process_slot (truthy_str existing.audio_url) audio_key s1 with
      | .error e => .error e
      | .ok (s2, opsA, mA) =>
        match process_slot (truthy_str existing.video_url) video_key s2 with
        | .error e => .error e
        | .ok (s3v, opsV, mV) =>
          let r := update_first note_id username
            (apply_update title description date mI mA mV) coll
          .ok (r.1, s3v, opsI ++ opsA ++ opsV ++ [S3Op.rec_update],
            if r.2 ≠ 0 then "Note updated successfully" else "No changes detected")

/-- Embeds update_note from src/routes/notes.py including its catch-all
handler, which re-raises every exception, its own 404 included, as a 500
wrapping the Python str of the exception. -/
def update_note (username : String) (note_id : Int)
    (image_key audio_key video_key : Option String)
    (title description date : String) (coll : List Doc) (s3 : S3State) :
    Except HTTPError (List Doc × S3State × List S3Op × String) :=
  match update_note_body username note_id image_key audio_key video_key
      title description date coll s3 with
  | .ok r => .ok r
  | .error e => .error { status := 500, detail := http_exception_str e }

/-! ## Signup routes (src/routes/signup.py) -/

structure HashPasswordResponse where
  original_password : String
  hashed_password : String
  message : String
deriving DecidableEq

/-- Embeds the hash_password route from src/routes/signup.py: an
unauthenticated endpoint (it declares no auth dependency, so its model
takes no token or user) that hashes the submitted password and echoes the
submitted plaintext back verbatim in the original_password field. -/
def hash_password_endpoint (B : BcryptBackend) (password : String) : HashPasswordResponse :=
  { original_password := password,
    hashed_password := get_password_hash B password,
    message := "Password hashed successfully" }

/-- The id-irrelevant relabeling of owners, used to state that the id
sequence ignores which user owns which document. -/
def owner_relabel (g : String → String) (d : Doc) : Doc :=
  { d with user_id := d.user_id.map g }

/-- A concrete note document owned by alice with id 5, used to instantiate
witnesses. -/
def sample_note_5 : Doc :=
  { id := some 5, title := some "x", description := some "y",
    date := some "z", user_id := some "alice" }

/-- A concrete note document owned by alice with id 1 and no attachments,
used to instantiate witnesses and counterexamples. -/
def sample_trip_note : Doc :=
  { id := some 1, title := some "trip", description := some "beach",
    date := some "2024-01-01", user_id := some "alice" }

/-- A concrete credential record for alice, as written by signup: it has no
id field and no user_id field, yet lives in the same collection as the
notes. -/
def sample_alice_cred : Doc :=
  { username := some "alice", hashed_password := some "h", role := some "student" }


/-- A concrete note document with an image attachment, used to instantiate
witnesses. -/
def sample_image_note : Doc :=
  { id := some 1, title := some "t", description := some "d",
    date := some "2024-01-01", user_id := some "alice",
    image_url := some "https://d2ljorwegx33x7.cloudfront.net/old.png" }

/-! ## Theorems for claims C2 and C3 -/

/-- C2: for every plaintext longer than 72 characters, hashing then
verifying the same full plaintext succeeds; moreover both hash and verify
treat a password and its 72-character truncation as the same input. -/
theorem c2_hash_verify_truncation_roundtrip (B : BcryptBackend) (p h : String)
    (hlen : 72 < p.length) :
    verify_password B p (get_password_hash B p) = true
    ∧ get_password_hash B p = get_password_hash B (String.mk (p.data.take 72))
    ∧ verify_password B p h = verify_password B (String.mk (p.data.take 72)) h := by
  have hplen : p.length = p.data.length := rfl
  have hlen72 : (String.mk (p.data.take 72)).length = 72 := by
    show (p.data.take 72).length = 72
    rw [List.length_take]
    omega
  constructor
  · simp only [verify_password, get_password_hash, if_pos hlen]
    exact B.roundtrip _
  constructor
  · simp only [get_password_hash, hlen72, if_pos hlen]
    simp
  · simp only [verify_password, hlen72, if_pos hlen]
    simp

theorem c2_hash_verify_truncation_roundtrip_witness :
    verify_password test_backend (String.mk (List.replicate 73 'a'))
      (get_password_hash test_backend (String.mk (List.replicate 73 'a'))) = true :=
  (c2_hash_verify_truncation_roundtrip test_backend
    (String.mk (List.replicate 73 'a')) "" (by decide)).1

/-- C3: token validation returns an invalid result exactly when the
signature does not verify under the server secret, the expiry is in the
past, or the subject claim is missing or malformed; a token signed with a
different secret never validates; an issued token validates strictly before
its expiry and fails strictly after. The model verifier is a total
function, so no exception crosses the boundary. -/
theorem c3_token_verification (secret other sub : String) (now iat delta : Int) (t : Jwt) :
    (validate_token secret now t = none
      ↔ t.sig ≠ (secret, t.payload) ∨ t.payload.exp < now ∨ t.payload.sub = none)
    ∧ (other ≠ secret →
        validate_token secret now (create_access_token other sub iat (some delta)) = none)
    ∧ (now < iat + delta →
        validate_token secret now (create_access_token secret sub iat (some delta)) = some sub)
    ∧ (iat + delta < now →
        validate_token secret now (create_access_token secret sub iat (some delta)) = none) := by
  refine ⟨?_, ?_, ?_, ?_⟩
  · simp only [validate_token, verify_token, jwt_decode]
    by_cases hsig : t.sig = (secret, t.payload)
    · by_cases hexp : now ≤ t.payload.exp
      · rw [if_pos ⟨hsig, hexp⟩]
        constructor
        · exact fun h => Or.inr (Or.inr h)
        · rintro (h | h | h)
          · exact absurd hsig h
          · exact absurd hexp (not_le.mpr h)
          · exact h
      · rw [if_neg (fun hc => hexp hc.2)]
        constructor
        · exact fun _ => Or.inr (Or.inl (not_le.mp hexp))
        · exact fun _ => rfl
    · rw [if_neg (fun hc => hsig hc.1)]
      constructor
      · exact fun _ => Or.inl hsig
      · exact fun _ => rfl
  · intro hne
    simp only [validate_token, verify_token, jwt_decode, create_access_token, jwt_encode]
    have : ((other, ({ sub := some sub, exp := iat + delta } : Payload)) :
        String × Payload) ≠ (secret, { sub := some sub, exp := iat + delta }) := by
      intro h
      exact hne (congrArg Prod.fst h)
    simp [this]
  · intro hlt
    simp only [validate_token, verify_token, jwt_decode, create_access_token, jwt_encode]
    have hle : now ≤ iat + delta := le_of_lt hlt
    simp [hle]
  · intro hlt
    simp only [validate_token, verify_token, jwt_decode, create_access_token, jwt_encode]
    have : ¬ now ≤ iat + delta := by omega
    simp [this]

theorem c3_token_verification_witness :
    validate_token "server-secret" 0 (create_access_token "attacker" "alice" 0 (some 30)) = none
    ∧ validate_token "server-secret" 10
        (create_access_token "server-secret" "alice" 0 (some 30)) = some "alice"
    ∧ validate_token "server-secret" 31
        (create_access_token "server-secret" "alice" 0 (some 30)) = none :=
  ⟨(c3_token_verification "server-secret" "attacker" "alice" 0 0 30
      (create_access_token "attacker" "alice" 0 (some 30))).2.1 (by decide),
   (c3_token_verification "server-secret" "server-secret" "alice" 10 0 30
      (create_access_token "server-secret" "alice" 0 (some 30))).2.2.1 (by decide),
   (c3_token_verification "server-secret" "server-secret" "alice" 31 0 30
      (create_access_token "server-secret" "alice" 0 (some 30))).2.2.2 (by decide)⟩


/-- C5: a syntactically valid token whose subject resolves to a credential
record with the disabled flag set is answered with the distinct 400
Inactive user response, which differs from the generic 401
credentials_exception, and no downstream handler ever runs. -/
theorem c5_disabled_user_distinct_response (secret : String) (now : Int) (store : List Doc)
    (token : Jwt) (p : Payload) (u : String) (r : Doc)
    (hdec : jwt_decode secret now token = some p) (hsub : p.sub = some u)
    (hget : get_user store u = some r) (hdis : r.disabled = some true) :
    get_current_active_user secret now store token
      = .error { status := 400, detail := "Inactive user" }
    ∧ ({ status := 400, detail := "Inactive user" } : HTTPError) ≠ credentials_exception
    ∧ ∀ (α : Type) (handler : Doc → α),
        run_protected (get_current_active_user secret now store token) handler
          = .error { status := 400, detail := "Inactive user" } := by
  have hgate : get_current_active_user secret now store token
      = .error { status := 400, detail := "Inactive user" } := by
    unfold get_current_active_user get_current_user
    simp only [hdec, hsub, hget, if_pos hdis]
  refine ⟨hgate, ?_, ?_⟩
  · intro h
    exact absurd (congrArg HTTPError.status h) (by decide)
  · intro α handler
    rw [hgate]
    rfl

theorem c5_disabled_user_distinct_response_witness :
    get_current_active_user "k" 0
      [{ username := some "alice", hashed_password := some "h",
         disabled := some true, role := some "student" }]
      (create_access_token "k" "alice" 0 (some 30))
      = .error { status := 400, detail := "Inactive user" } :=
  (c5_disabled_user_distinct_response "k" 0
    [{ username := some "alice", hashed_password := some "h",
       disabled := some true, role := some "student" }]
    (create_access_token "k" "alice" 0 (some 30))
    { sub := some "alice", exp := 30 } "alice"
    { username := some "alice", hashed_password := some "h",
      disabled := some true, role := some "student" }
    (by decide) (by decide) (by decide) (by decide)).1


/-! ## Helper lemmas about the collection model -/

theorem max_id_eq_none_iff (coll : List Doc) :
    max_id coll = none ↔ ∀ d ∈ coll, d.id = none := by
  induction coll with
  | nil => simp [max_id]
  | cons d rest ih =>
    cases hd : d.id <;> cases hr : max_id rest <;>
      simp [max_id, hd, hr] at ih ⊢ <;> tauto

theorem max_id_le (coll : List Doc) (m : Int) (h : max_id coll = some m) :
    ∀ d ∈ coll, ∀ i, d.id = some i → i ≤ m := by
  induction coll generalizing m with
  | nil => simp [max_id] at h
  | cons d rest ih =>
    intro e he i hei
    cases hd : d.id <;> cases hr : max_id rest <;> simp [max_id, hd, hr] at h
    · rcases List.mem_cons.mp he with rfl | hmem
      · rw [hd] at hei; exact absurd hei (by simp)
      · subst h; exact ih _ hr e hmem i hei
    · rename_i i0
      rcases List.mem_cons.mp he with rfl | hmem
      · rw [hd] at hei
        obtain rfl : i0 = i := by simpa using hei
        omega
      · have hnone : e.id = none := (max_id_eq_none_iff rest).mp hr e hmem
        rw [hnone] at hei; exact absurd hei (by simp)
    · rename_i i0 mr
      rcases List.mem_cons.mp he with rfl | hmem
      · rw [hd] at hei
        obtain rfl : i0 = i := by simpa using hei
        subst h
        exact le_max_left _ _
      · have := ih _ hr e hmem i hei
        subst h
        exact le_trans this (le_max_right _ _)

theorem max_id_mem (coll : List Doc) (m : Int) (h : max_id coll = some m) :
    ∃ d ∈ coll, d.id = some m := by
  induction coll generalizing m with
  | nil => simp [max_id] at h
  | cons d rest ih =>
    cases hd : d.id <;> cases hr : max_id rest <;> simp [max_id, hd, hr] at h
    · obtain ⟨e, he, hei⟩ := ih _ hr
      exact ⟨e, List.mem_cons_of_mem _ he, by rw [hei, h]⟩
    · exact ⟨d, List.mem_cons_self _ _, by rw [hd, h]⟩
    · rename_i i mr
      rcases le_total mr i with hc | hc
      · refine ⟨d, List.mem_cons_self _ _, ?_⟩
        rw [hd, ← h, max_eq_left hc]
      · obtain ⟨e, he, hei⟩ := ih _ hr
        refine ⟨e, List.mem_cons_of_mem _ he, ?_⟩
        rw [hei, ← h, max_eq_right hc]

theorem find_note_eq_none (coll : List Doc) (note_id : Int) (u : String)
    (h : ∀ e ∈ coll, e.id = some note_id → e.user_id ≠ some u) :
    find_note coll note_id u = none := by
  unfold find_note
  rw [List.find?_eq_none]
  intro x hx
  simp only [Bool.and_eq_true, beq_iff_eq, not_and]
  exact fun h1 h2 => h x hx h1 h2

/-! ## Theorems for claims C6, C8, C9, C10 -/

/-- C6: search returns, among the documents of the authenticated owner,
exactly those whose title or description matches the case-insensitive
query, plus those whose id equals the query when it parses as an integer;
and the spec example with query 1 over notes with id 1 and title 1st
returns both. -/
theorem c6_search_semantics (query username : String) (coll : List Doc) (d : Doc) :
    (d ∈ search_notes query username coll ↔
      d ∈ coll ∧ d.user_id = some username ∧
        (regex_i_match query d.title = true ∨ regex_i_match query d.description = true ∨
          ∃ n, py_int? query = some n ∧ d.id = some n))
    ∧ search_notes "1" "alice"
        [{ id := some 1, title := some "a", description := some "b",
           date := some "2024-01-01", user_id := some "alice" },
         { id := some 12, title := some "1st", description := some "c",
           date := some "2024-01-02", user_id := some "alice" }]
      = [{ id := some 1, title := some "a", description := some "b",
           date := some "2024-01-01", user_id := some "alice" },
         { id := some 12, title := some "1st", description := some "c",
           date := some "2024-01-02", user_id := some "alice" }] := by
  constructor
  · unfold search_notes search_conditions
    rw [List.mem_filter]
    cases hq : py_int? query with
    | none =>
      simp only [hq, Bool.and_eq_true, beq_iff_eq, Bool.or_eq_true]
      constructor
      · rintro ⟨h1, h2, h3⟩
        refine ⟨h1, h2, ?_⟩
        rcases h3 with (h | h) | h
        · exact Or.inl h
        · exact Or.inr (Or.inl h)
        · simp at h
      · rintro ⟨h1, h2, h3⟩
        refine ⟨h1, h2, ?_⟩
        rcases h3 with h | h | ⟨n, hn, _⟩
        · exact Or.inl (Or.inl h)
        · exact Or.inl (Or.inr h)
        · exact absurd hn (by simp)
    | some n =>
      simp only [hq, Bool.and_eq_true, beq_iff_eq, Bool.or_eq_true]
      constructor
      · rintro ⟨h1, h2, h3⟩
        refine ⟨h1, h2, ?_⟩
        rcases h3 with (h | h) | h
        · exact Or.inl h
        · exact Or.inr (Or.inl h)
        · exact Or.inr (Or.inr ⟨n, rfl, h⟩)
      · rintro ⟨h1, h2, h3⟩
        refine ⟨h1, h2, ?_⟩
        rcases h3 with h | h | ⟨n2, hn2, hid⟩
        · exact Or.inl (Or.inl h)
        · exact Or.inl (Or.inr h)
        · obtain rfl : n = n2 := by simpa using hn2
          exact Or.inr hid
  · decide

/-- C8: creation assigns the next sequential id, namely the highest id in
the collection plus one, or 1 when no document carries an id; into an
empty collection the first note receives id 1; and the response carries
null attachment URLs for absent attachments. -/
theorem c8_create_note_sequential_id (username title description date : String)
    (coll : List Doc) (s3 : S3State) (m : Int) :
    ((create_note username title description date none none none coll s3).1.id
        = get_next_sequence_value coll)
    ∧ ((∀ d ∈ coll, d.id = none) →
        (create_note username title description date none none none coll s3).1.id = 1)
    ∧ ((∃ d ∈ coll, d.id = some m) → (∀ d ∈ coll, ∀ i, d.id = some i → i ≤ m) →
        (create_note username title description date none none none coll s3).1.id = m + 1)
    ∧ ((create_note username title description date none none none coll s3).1.image_url = none
        ∧ (create_note username title description date none none none coll s3).1.audio_url = none
        ∧ (create_note username title description date none none none coll s3).1.video_url = none)
    ∧ (coll = [] →
        (create_note username title description date none none none coll s3).1.id = 1) := by
  refine ⟨rfl, ?_, ?_, ⟨rfl, rfl, rfl⟩, ?_⟩
  · intro h
    show get_next_sequence_value coll = 1
    unfold get_next_sequence_value
    rw [(max_id_eq_none_iff coll).mpr h]
  · rintro ⟨e, he, hei⟩ hub
    show get_next_sequence_value coll = m + 1
    unfold get_next_sequence_value
    cases hm : max_id coll with
    | none =>
      have := (max_id_eq_none_iff coll).mp hm e he
      rw [this] at hei; exact absurd hei (by simp)
    | some m2 =>
      have h1 : m2 ≤ m := by
        obtain ⟨f, hf, hfi⟩ := max_id_mem coll m2 hm
        exact hub f hf m2 hfi
      have h2 : m ≤ m2 := max_id_le coll m2 hm e he m hei
      show m2 + 1 = m + 1
      omega
  · intro h
    subst h
    rfl

theorem c8_create_note_sequential_id_witness :
    (create_note "alice" "trip" "beach" "2024-01-01" none none none [] []).1.id = 1
    ∧ (create_note "alice" "trip" "beach" "2024-01-01" none none none [] []).1.image_url = none
    ∧ (create_note "bob" "t" "d" "dt" none none none
        [sample_note_5] []).1.id = 6 := by
  refine ⟨?_, ?_, ?_⟩
  · exact (c8_create_note_sequential_id "alice" "trip" "beach" "2024-01-01" [] [] 0).2.2.2.2 rfl
  · exact (c8_create_note_sequential_id "alice" "trip" "beach" "2024-01-01" [] [] 0).2.2.2.1.1
  · refine (c8_create_note_sequential_id "bob" "t" "d" "dt"
      [sample_note_5] [] 5).2.2.1 ⟨_, List.mem_singleton_self _, rfl⟩ ?_
    intro d hd i hi
    rw [List.mem_singleton] at hd
    subst hd
    simp [sample_note_5] at hi
    omega

theorem max_id_owner_relabel (g : String → String) (coll : List Doc) :
    max_id (coll.map (owner_relabel g)) = max_id coll := by
  induction coll with
  | nil => rfl
  | cons d rest ih => simp [max_id, owner_relabel, ih]

/-- C9: the credential store and the note store are the same MongoDB
collection; the next-id computation carries no owner filter, so it is
invariant under arbitrary relabeling of owners and independent of the
creating user; and under the invariant that assigned ids are at least 1, a
created note receives id 1 exactly when no document in the whole collection
carries an id. -/
theorem c9_shared_collection_and_sequence (g : String → String)
    (username u2 title description date : String) (coll : List Doc) (s3 : S3State) :
    notes_collection_ref = blogs_collection_ref
    ∧ get_next_sequence_value (coll.map (owner_relabel g)) = get_next_sequence_value coll
    ∧ ((create_note username title description date none none none coll s3).1.id
        = (create_note u2 title description date none none none coll s3).1.id)
    ∧ ((∀ d ∈ coll, ∀ i, d.id = some i → 1 ≤ i) →
        ((create_note username title description date none none none coll s3).1.id = 1
          ↔ ∀ d ∈ coll, d.id = none)) := by
  refine ⟨rfl, ?_, rfl, ?_⟩
  · unfold get_next_sequence_value
    rw [max_id_owner_relabel]
  · intro hinv
    show get_next_sequence_value coll = 1 ↔ _
    unfold get_next_sequence_value
    cases hm : max_id coll with
    | none => simpa using (max_id_eq_none_iff coll).mp hm
    | some m =>
      obtain ⟨e, he, hei⟩ := max_id_mem coll m hm
      have h1 : 1 ≤ m := hinv e he m hei
      constructor
      · intro h
        exact absurd (show m + 1 = 1 from h) (by omega)
      · intro h
        rw [h e he] at hei
        exact absurd hei (by simp)

theorem c9_shared_collection_and_sequence_witness :
    ((create_note "bob" "t" "d" "dt" none none none
        [sample_note_5] []).1.id = 1
      ↔ ∀ d ∈ [sample_note_5], d.id = none) := by
  refine (c9_shared_collection_and_sequence id "bob" "carol" "t" "d" "dt"
    [sample_note_5] []).2.2.2 ?_
  intro d hd i hi
  rw [List.mem_singleton] at hd
  subst hd
  simp [sample_note_5] at hi
  omega

/-- C10: the unauthenticated hash-password endpoint echoes the submitted
plaintext verbatim in the original_password response field for every
request, alongside the computed hash. -/
theorem c10_hash_password_echoes_plaintext (B : BcryptBackend) (password : String) :
    (hash_password_endpoint B password).original_password = password
    ∧ (hash_password_endpoint B password).hashed_password = get_password_hash B password :=
  ⟨rfl, rfl⟩

/-! ## Theorems for claims C1 and C4 -/

/-- C1 counterexample: with alice owning note 1, user bob deleting note id 1
is answered with status 500, not a 404-equivalent not-found, because the
catch-all handler of delete_note converts its own 404 HTTPException. -/
theorem c1_cross_user_delete_counterexample :
    response_status (delete_note "bob" 1 [sample_trip_note] []) = some 500
    ∧ response_status (delete_note "bob" 1 [sample_trip_note] []) ≠ some 404 := by
  constructor
  · rfl
  · decide

/-- C1 (amended): every note operation filters server-side by the
authenticated owner: list and search results for user u never contain a
document owned by a different user v; reading another owner's note id
reports a 404 not-found; updating or deleting another owner's note id does
not act on it (the operation returns an error, so no new collection or
store state is produced), but the reported response is a 500 wrapping the
internal 404 message, because the catch-all handlers convert the
HTTPException. -/
theorem c1_owner_scoping (u v query : String) (note_id : Int) (coll : List Doc)
    (s3 : S3State) (d : Doc) :
    (d.user_id = some v → v ≠ u → d ∉ get_notes u coll ∧ d ∉ search_notes query u coll)
    ∧ ((∀ e ∈ coll, e.id = some note_id → e.user_id ≠ some u) →
        get_note note_id u coll = .error { status := 404, detail := "Note not found" }
        ∧ delete_note u note_id coll s3
            = .error { status := 500, detail := "404: Note not found" }
        ∧ (∀ ik ak vk ti de da, update_note u note_id ik ak vk ti de da coll s3
            = .error { status := 500, detail := "404: Note not found" })) := by
  constructor
  · intro hv hne
    constructor
    · intro hmem
      unfold get_notes at hmem
      have h2 := (List.mem_filter.mp hmem).2
      rw [beq_iff_eq, hv] at h2
      exact hne (by simpa using h2)
    · intro hmem
      unfold search_notes at hmem
      have h2 := (List.mem_filter.mp hmem).2
      rw [Bool.and_eq_true] at h2
      have h3 := h2.1
      rw [beq_iff_eq, hv] at h3
      exact hne (by simpa using h3)
  · intro h
    have hfn : find_note coll note_id u = none := find_note_eq_none coll note_id u h
    refine ⟨?_, ?_, ?_⟩
    · unfold get_note
      rw [hfn]
    · unfold delete_note delete_note_body
      rw [hfn]
      rfl
    · intro ik ak vk ti de da
      unfold update_note update_note_body
      rw [hfn]
      rfl

theorem c1_owner_scoping_witness :
    sample_trip_note ∉ get_notes "bob" [sample_trip_note]
    ∧ sample_trip_note ∉ search_notes "trip" "bob" [sample_trip_note]
    ∧ get_note 1 "bob" [sample_trip_note]
        = .error { status := 404, detail := "Note not found" }
    ∧ delete_note "bob" 1 [sample_trip_note] []
        = .error { status := 500, detail := "404: Note not found" } := by
  have h := c1_owner_scoping "bob" "alice" "trip" 1 [sample_trip_note] [] sample_trip_note
  have hv : sample_trip_note.user_id = some "alice" := rfl
  have hne : "alice" ≠ "bob" := by decide
  have hother : ∀ e ∈ [sample_trip_note], e.id = some 1 → e.user_id ≠ some "bob" := by
    intro e he
    rw [List.mem_singleton] at he
    subst he
    intro _
    decide
  exact ⟨(h.1 hv hne).1, (h.1 hv hne).2, (h.2 hother).1, (h.2 hother).2.1⟩

/-- C4: evaluated at a delete request for a note id that does not exist for
the authenticated owner, the body of delete_note raises its 404 Note not
found as the specification requires, but the catch-all exception handler of
the route converts it, so the response actually sent is a 500 whose detail
is the stringified 404, contradicting the not-found contract. -/
theorem c4_delete_missing_note_evaluation :
    delete_note_body "alice" 999 [sample_alice_cred, sample_trip_note] []
      = .error { status := 404, detail := "Note not found" }
    ∧ delete_note "alice" 999 [sample_alice_cred, sample_trip_note] []
      = .error { status := 500, detail := "404: Note not found" } := by
  constructor
  · rfl
  · rfl

/-! ## Trace lemmas for the attachment lifecycle -/

theorem run_ops_append (s : S3State) (l1 l2 : List S3Op) :
    run_ops s (l1 ++ l2) = run_ops (run_ops s l1) l2 := by
  unfold run_ops
  exact List.foldl_append _ _ _ _

theorem mem_states_along_append (s : S3State) (l1 l2 : List S3Op) (t : S3State)
    (h : t ∈ states_along s (l1 ++ l2)) :
    t ∈ states_along s l1 ∨ t ∈ states_along (run_ops s l1) l2 := by
  induction l1 generalizing s with
  | nil => exact Or.inr h
  | cons op rest ih =>
    simp only [List.cons_append, states_along] at h
    rcases List.mem_cons.mp h with rfl | h2
    · exact Or.inl (List.mem_cons_self _ _)
    · rcases ih (apply_op s op) h2 with h3 | h3
      · exact Or.inl (List.mem_cons_of_mem _ h3)
      · exact Or.inr h3

/-- A key absent from the store stays absent along a trace that never puts
it. -/
theorem keep_out (k : String) (s : S3State) (ops : List S3Op)
    (hk : k ∉ s) (hput : ∀ k2, S3Op.put k2 ∈ ops → k2 ≠ k) :
    (∀ t ∈ states_along s ops, k ∉ t) ∧ k ∉ run_ops s ops := by
  induction ops generalizing s with
  | nil =>
    refine ⟨?_, hk⟩
    intro t ht
    simp only [states_along, List.mem_singleton] at ht
    subst ht
    exact hk
  | cons op rest ih =>
    have hk2 : k ∉ apply_op s op := by
      cases op with
      | del url =>
        cases hext : extract_key url with
        | ok key =>
          simp only [apply_op, hext]
          intro hmem
          exact hk (List.mem_of_mem_filter hmem)
        | error e =>
          simp only [apply_op, hext]
          exact hk
      | put key =>
        simp only [apply_op, insert_key]
        by_cases hks : key ∈ s
        · rw [if_pos hks]; exact hk
        · rw [if_neg hks]
          intro hmem
          rcases List.mem_cons.mp hmem with rfl | hmem2
          · exact (hput _ (List.mem_cons_self _ _)) rfl
          · exact hk hmem2
      | rec_update => exact hk
    obtain ⟨h1, h2⟩ := ih (apply_op s op) hk2 (fun k2 hm => hput k2 (List.mem_cons_of_mem _ hm))
    refine ⟨?_, h2⟩
    intro t ht
    simp only [states_along] at ht
    rcases List.mem_cons.mp ht with rfl | ht2
    · exact hk
    · exact h1 t ht2

/-- Insertion preserves the absence of any other key. -/
theorem not_mem_insert_key (k key : String) (s : S3State)
    (hk : k ∉ s) (hne : k ≠ key) : k ∉ insert_key key s := by
  unfold insert_key
  by_cases hks : key ∈ s
  · rw [if_pos hks]; exact hk
  · rw [if_neg hks]
    intro hmem
    rcases List.mem_cons.mp hmem with rfl | hmem2
    · exact hne rfl
    · exact hk hmem2

/-- The delete of a URL removes the percent-decoded extracted key. -/
theorem del_removes (s : S3State) (url key : String)
    (hext : extract_key url = .ok key) :
    str_unquote key ∉ apply_op s (S3Op.del url) := by
  simp only [apply_op, hext]
  intro hmem
  have h2 := (List.mem_filter.mp hmem).2
  simp at h2

/-- A put inside a slot trace can only carry the key of the new upload of
that slot. -/
theorem put_mem_slot_ops (old_url new_key : Option String) (k2 : String)
    (h : S3Op.put k2 ∈ slot_ops old_url new_key) : new_key = some k2 := by
  cases new_key with
  | none => simp [slot_ops] at h
  | some k =>
    cases old_url with
    | none =>
      simp [slot_ops] at h
      rw [h]
    | some u =>
      simp [slot_ops] at h
      rw [h]

/-- Old-before-new within one slot keeps the old and the new object from
ever coexisting, and leaves the old object absent at the end, provided the
new key is fresh, nothing before the slot puts the new key and nothing
after the slot re-puts the old key. -/
theorem slot_lifecycle (s0 : S3State) (pre post : List S3Op) (u key newk : String)
    (hext : extract_key u = .ok key)
    (hnew0 : newk ∉ s0)
    (hpre : ∀ k2, S3Op.put k2 ∈ pre → k2 ≠ newk)
    (hpost : ∀ k2, S3Op.put k2 ∈ post → k2 ≠ str_unquote key)
    (hne : newk ≠ str_unquote key) :
    (∀ t ∈ states_along s0 (pre ++ S3Op.del u :: S3Op.put newk :: post),
        ¬(str_unquote key ∈ t ∧ newk ∈ t))
    ∧ str_unquote key ∉ run_ops s0 (pre ++ S3Op.del u :: S3Op.put newk :: post) := by
  obtain ⟨hpre1, hpre2⟩ := keep_out newk s0 pre hnew0 hpre
  have hkey2 : str_unquote key ∉ apply_op (run_ops s0 pre) (S3Op.del u) :=
    del_removes (run_ops s0 pre) u key hext
  have hnew2 : newk ∉ apply_op (run_ops s0 pre) (S3Op.del u) := by
    simp only [apply_op, hext]
    intro hmem
    exact hpre2 (List.mem_of_mem_filter hmem)
  have hkey3 : str_unquote key
      ∉ apply_op (apply_op (run_ops s0 pre) (S3Op.del u)) (S3Op.put newk) :=
    not_mem_insert_key _ newk _ hkey2 (fun heq => hne heq.symm)
  obtain ⟨hko1, hko2⟩ := keep_out (str_unquote key)
    (apply_op (apply_op (run_ops s0 pre) (S3Op.del u)) (S3Op.put newk)) post hkey3 hpost
  have hrun : run_ops s0 (pre ++ S3Op.del u :: S3Op.put newk :: post)
      = run_ops (apply_op (apply_op (run_ops s0 pre) (S3Op.del u)) (S3Op.put newk)) post := by
    rw [run_ops_append]
    rfl
  constructor
  · intro t ht
    rcases mem_states_along_append s0 pre _ t ht with h | h
    · exact fun hc => hpre1 t h hc.2
    · simp only [states_along] at h
      rcases List.mem_cons.mp h with rfl | h
      · exact fun hc => hpre2 hc.2
      rcases List.mem_cons.mp h with rfl | h
      · exact fun hc => hkey2 hc.1
      · exact fun hc => hko1 t h hc.1
  · rw [hrun]
    exact hko2

/-- A successful single-slot delete has the same store effect as the del
trace operation. -/
theorem delete_ok_apply_op (u : String) (s s' : S3State)
    (h : delete_file_from_s3 u s = .ok s') :
    apply_op s (S3Op.del u) = s' := by
  unfold delete_file_from_s3 at h
  cases hext : extract_key u with
  | error e => rw [hext] at h; exact absurd h (by simp)
  | ok key =>
    rw [hext] at h
    simp only [Except.ok.injEq] at h
    simp only [apply_op, hext]
    exact h

/-- A successful slot emits exactly its slot trace and its store effect is
running that trace. -/
theorem process_slot_ok (old_url new_key : Option String) (s3 s3' : S3State)
    (ops : List S3Op) (meta : Option String)
    (h : process_slot old_url new_key s3 = .ok (s3', ops, meta)) :
    ops = slot_ops old_url new_key ∧ s3' = run_ops s3 ops := by
  cases new_key with
  | none =>
    simp only [process_slot, Except.ok.injEq, Prod.mk.injEq] at h
    obtain ⟨h1, h2, -⟩ := h
    subst h1
    subst h2
    exact ⟨rfl, rfl⟩
  | some k =>
    cases old_url with
    | none =>
      simp only [process_slot, Except.ok.injEq, Prod.mk.injEq] at h
      obtain ⟨h1, h2, -⟩ := h
      subst h1
      subst h2
      exact ⟨rfl, rfl⟩
    | some u =>
      simp only [process_slot] at h
      cases hdel : delete_file_from_s3 u s3 with
      | error e => rw [hdel] at h; simp at h
      | ok s3d =>
        rw [hdel] at h
        simp only [Except.ok.injEq, Prod.mk.injEq] at h
        obtain ⟨h1, h2, -⟩ := h
        subst h1
        subst h2
        refine ⟨rfl, ?_⟩
        show (save_file_to_s3 k s3d).2 = run_ops s3 [S3Op.del u, S3Op.put k]
        have : run_ops s3 [S3Op.del u, S3Op.put k]
            = apply_op (apply_op s3 (S3Op.del u)) (S3Op.put k) := rfl
        rw [this, delete_ok_apply_op u s3 s3d hdel]
        rfl

/-- Inversion of a successful update: the three slots each succeeded in
order and the trace is their concatenation followed by the record write. -/
theorem update_note_ok_inversion (username : String) (note_id : Int)
    (ik ak vk : Option String) (ti de da : String) (coll coll' : List Doc)
    (s3 s3' : S3State) (ops : List S3Op) (msg : String) (existing : Doc)
    (hfind : find_note coll note_id username = some existing)
    (hrun : update_note username note_id ik ak vk ti de da coll s3
      = .ok (coll', s3', ops, msg)) :
    ∃ s1 s2 opsI opsA opsV mI mA mV,
      process_slot (truthy_str existing.image_url) ik s3 = .ok (s1, opsI, mI)
      ∧ process_slot (truthy_str existing.audio_url) ak s1 = .ok (s2, opsA, mA)
      ∧ process_slot (truthy_str existing.video_url) vk s2 = .ok (s3', opsV, mV)
      ∧ ops = opsI ++ opsA ++ opsV ++ [S3Op.rec_update] := by
  unfold update_note update_note_body at hrun
  simp only [hfind] at hrun
  cases hI : process_slot (truthy_str existing.image_url) ik s3 with
  | error e =>
    simp only [hI] at hrun
    exact Except.noConfusion hrun
  | ok rI =>
    obtain ⟨s1, opsI, mI⟩ := rI
    simp only [hI] at hrun
    cases hA : process_slot (truthy_str existing.audio_url) ak s1 with
    | error e =>
      simp only [hA] at hrun
      exact Except.noConfusion hrun
    | ok rA =>
      obtain ⟨s2, opsA, mA⟩ := rA
      simp only [hA] at hrun
      cases hV : process_slot (truthy_str existing.video_url) vk s2 with
      | error e =>
        simp only [hV] at hrun
        exact Except.noConfusion hrun
      | ok rV =>
        obtain ⟨s3v, opsV, mV⟩ := rV
        simp only [hV, Except.ok.injEq, Prod.mk.injEq] at hrun
        obtain ⟨-, h2, h3, -⟩ := hrun
        refine ⟨s1, s2, opsI, opsA, opsV, mI, mA, mV, rfl, hA, ?_, h3.symm⟩
        rw [← h2]
        exact hV

/-- C7: for a successful update by the owner of an existing note, the
emitted store trace is, per attachment slot in image-audio-video order, the
delete of the old object (when one was referenced) immediately followed by
the put of the new object, with the record write strictly last, and the
final store is the run of that trace; for each provided slot whose note
referenced an old object, with fresh and pairwise-distinct uploaded keys no
intermediate store state ever contains both the old object and its
successor, and the old object is absent from the final store; fetching by
the old image URL after the update reports the distinct 404 not-found. -/
theorem c7_update_attachment_lifecycle (username : String) (note_id : Int)
    (ik ak vk : Option String) (ti de da : String) (coll coll' : List Doc)
    (s3 s3' : S3State) (ops : List S3Op) (msg : String) (existing : Doc)
    (hfind : find_note coll note_id username = some existing)
    (hrun : update_note username note_id ik ak vk ti de da coll s3
      = .ok (coll', s3', ops, msg)) :
    (ops = slot_ops (truthy_str existing.image_url) ik
        ++ slot_ops (truthy_str existing.audio_url) ak
        ++ slot_ops (truthy_str existing.video_url) vk ++ [S3Op.rec_update]
      ∧ s3' = run_ops s3 ops)
    ∧ (∀ uI eI kI, ik = some kI → truthy_str existing.image_url = some uI →
        extract_key uI = .ok eI → kI ∉ s3 → kI ≠ str_unquote eI →
        (∀ k2, ak = some k2 → k2 ≠ str_unquote eI) →
        (∀ k2, vk = some k2 → k2 ≠ str_unquote eI) →
        (∀ t ∈ states_along s3 ops, ¬(str_unquote eI ∈ t ∧ kI ∈ t))
        ∧ str_unquote eI ∉ s3')
    ∧ (∀ uA eA kA, ak = some kA → truthy_str existing.audio_url = some uA →
        extract_key uA = .ok eA → kA ∉ s3 →
        (∀ k2, ik = some k2 → k2 ≠ kA) →
        kA ≠ str_unquote eA →
        (∀ k2, vk = some k2 → k2 ≠ str_unquote eA) →
        (∀ t ∈ states_along s3 ops, ¬(str_unquote eA ∈ t ∧ kA ∈ t))
        ∧ str_unquote eA ∉ s3')
    ∧ (∀ uV eV kV, vk = some kV → truthy_str existing.video_url = some uV →
        extract_key uV = .ok eV → kV ∉ s3 →
        (∀ k2, ik = some k2 → k2 ≠ kV) →
        (∀ k2, ak = some k2 → k2 ≠ kV) →
        kV ≠ str_unquote eV →
        (∀ t ∈ states_along s3 ops, ¬(str_unquote eV ∈ t ∧ kV ∈ t))
        ∧ str_unquote eV ∉ s3')
    ∧ (∀ uI eI, truthy_str existing.image_url = some uI →
        extract_key uI = .ok eI → str_unquote eI = eI → str_replace_plus eI = eI →
        eI ∉ s3' →
        get_file_from_s3 uI s3'
          = .error { status := 404, detail := "File not found with any key variation" }) := by
  obtain ⟨s1, s2, opsI, opsA, opsV, mI, mA, mV, hI, hA, hV, hops⟩ :=
    update_note_ok_inversion username note_id ik ak vk ti de da coll coll'
      s3 s3' ops msg existing hfind hrun
  obtain ⟨hopsI, hs1⟩ := process_slot_ok _ _ _ _ _ _ hI
  obtain ⟨hopsA, hs2⟩ := process_slot_ok _ _ _ _ _ _ hA
  obtain ⟨hopsV, hs3v⟩ := process_slot_ok _ _ _ _ _ _ hV
  have hops2 : ops = opsI ++ (opsA ++ (opsV ++ [S3Op.rec_update])) := by
    rw [hops, List.append_assoc, List.append_assoc]
  have hrunall : s3' = run_ops s3 ops := by
    rw [hops2, run_ops_append, ← hs1, run_ops_append, ← hs2, run_ops_append, ← hs3v]
    rfl
  refine ⟨⟨?_, hrunall⟩, ?_, ?_, ?_, ?_⟩
  · rw [hops, hopsI, hopsA, hopsV]
  · intro uI eI kI hik huI hext hfresh hne hak2 hvk2
    have hopsIeq : opsI = [S3Op.del uI, S3Op.put kI] := by
      rw [hopsI, huI, hik]
      rfl
    have hshape : ops
        = [] ++ (S3Op.del uI :: S3Op.put kI :: (opsA ++ (opsV ++ [S3Op.rec_update]))) := by
      rw [hops2, hopsIeq]
      rfl
    have hpost : ∀ k2, S3Op.put k2 ∈ opsA ++ (opsV ++ [S3Op.rec_update]) →
        k2 ≠ str_unquote eI := by
      intro k2 hm
      rcases List.mem_append.mp hm with hm | hm
      · rw [hopsA] at hm
        exact hak2 k2 (put_mem_slot_ops _ _ _ hm)
      · rcases List.mem_append.mp hm with hm | hm
        · rw [hopsV] at hm
          exact hvk2 k2 (put_mem_slot_ops _ _ _ hm)
        · simp at hm
    have hmain := slot_lifecycle s3 [] (opsA ++ (opsV ++ [S3Op.rec_update])) uI eI kI
      hext hfresh (fun k2 hm => absurd hm (List.not_mem_nil _)) hpost hne
    constructor
    · intro t ht
      rw [hshape] at ht
      exact hmain.1 t ht
    · rw [hrunall, hshape]
      exact hmain.2
  · intro uA eA kA hak huA hext hfresh hik2 hne hvk2
    have hopsAeq : opsA = [S3Op.del uA, S3Op.put kA] := by
      rw [hopsA, huA, hak]
      rfl
    have hshape : ops
        = opsI ++ (S3Op.del uA :: S3Op.put kA :: (opsV ++ [S3Op.rec_update])) := by
      rw [hops2, hopsAeq]
      rfl
    have hpre : ∀ k2, S3Op.put k2 ∈ opsI → k2 ≠ kA := by
      intro k2 hm
      rw [hopsI] at hm
      exact hik2 k2 (put_mem_slot_ops _ _ _ hm)
    have hpost : ∀ k2, S3Op.put k2 ∈ opsV ++ [S3Op.rec_update] →
        k2 ≠ str_unquote eA := by
      intro k2 hm
      rcases List.mem_append.mp hm with hm | hm
      · rw [hopsV] at hm
        exact hvk2 k2 (put_mem_slot_ops _ _ _ hm)
      · simp at hm
    have hmain := slot_lifecycle s3 opsI (opsV ++ [S3Op.rec_update]) uA eA kA
      hext hfresh hpre hpost hne
    constructor
    · intro t ht
      rw [hshape] at ht
      exact hmain.1 t ht
    · rw [hrunall, hshape]
      exact hmain.2
  · intro uV eV kV hvk huV hext hfresh hik2 hak2 hne
    have hopsVeq : opsV = [S3Op.del uV, S3Op.put kV] := by
      rw [hopsV, huV, hvk]
      rfl
    have hshape : ops
        = (opsI ++ opsA) ++ (S3Op.del uV :: S3Op.put kV :: [S3Op.rec_update]) := by
      rw [hops2, hopsVeq, ← List.append_assoc]
      rfl
    have hpre : ∀ k2, S3Op.put k2 ∈ opsI ++ opsA → k2 ≠ kV := by
      intro k2 hm
      rcases List.mem_append.mp hm with hm | hm
      · rw [hopsI] at hm
        exact hik2 k2 (put_mem_slot_ops _ _ _ hm)
      · rw [hopsA] at hm
        exact hak2 k2 (put_mem_slot_ops _ _ _ hm)
    have hpost : ∀ k2, S3Op.put k2 ∈ [S3Op.rec_update] → k2 ≠ str_unquote eV := by
      intro k2 hm
      simp at hm
    have hmain := slot_lifecycle s3 (opsI ++ opsA) [S3Op.rec_update] uV eV kV
      hext hfresh hpre hpost hne
    constructor
    · intro t ht
      rw [hshape] at ht
      exact hmain.1 t ht
    · rw [hrunall, hshape]
      exact hmain.2
  · intro uI eI huI hext hunq hrep habs
    have hvar : key_variants eI = [eI] := by
      unfold key_variants str_unquote_plus
      rw [hrep, hunq]
      simp [dedup_keys, dedup_keys_aux]
    have hnone : List.find? (fun k => decide (k ∈ s3')) [eI] = none := by
      simp [List.find?, habs]
    simp only [get_file_from_s3, hext]
    rw [hvar, hnone]

theorem c7_update_attachment_lifecycle_witness :
    (∀ t ∈ states_along ["old.png"]
        [S3Op.del "https://d2ljorwegx33x7.cloudfront.net/old.png",
         S3Op.put "new.png", S3Op.rec_update],
      ¬(str_unquote "old.png" ∈ t ∧ "new.png" ∈ t))
    ∧ str_unquote "old.png" ∉ (["new.png"] : S3State)
    ∧ get_file_from_s3 "https://d2ljorwegx33x7.cloudfront.net/old.png" ["new.png"]
      = .error { status := 404, detail := "File not found with any key variation" } := by
  have hfind : find_note [sample_image_note] 1 "alice" = some sample_image_note := rfl
  have hrun : update_note "alice" 1 (some "new.png") none none "t2" "d2" "2024-02-02"
      [sample_image_note] ["old.png"]
    = .ok ([{ id := some 1, title := some "t2", description := some "d2",
              date := some "2024-02-02", user_id := some "alice",
              image_url := some "https://d2ljorwegx33x7.cloudfront.net/new.png" }],
           ["new.png"],
           [S3Op.del "https://d2ljorwegx33x7.cloudfront.net/old.png",
            S3Op.put "new.png", S3Op.rec_update],
           "Note updated successfully") := by
    rfl
  have h := c7_update_attachment_lifecycle "alice" 1 (some "new.png") none none
    "t2" "d2" "2024-02-02" [sample_image_note] _ ["old.png"] _ _ _ sample_image_note
    hfind hrun
  have himg := h.2.1 "https://d2ljorwegx33x7.cloudfront.net/old.png" "old.png" "new.png"
    rfl rfl rfl (by decide) (by decide)
    (fun k2 hk2 => Option.noConfusion hk2) (fun k2 hk2 => Option.noConfusion hk2)
  refine ⟨himg.1, himg.2, ?_⟩
  exact h.2.2.2.2 "https://d2ljorwegx33x7.cloudfront.net/old.png" "old.png"
    rfl rfl rfl rfl (by decide)
